import Mathlib

/-!
# Verification of the meeting-pitch transcript pipeline

Shallow embedding of the incremental transcript aggregation and
summarization-trigger pipeline:

* `RollingTranscript` embeds `src/transcript_store/rolling_transcript.py`
  (the Segment Store): a capped recency buffer (`deque(maxlen=1000)`) plus a
  per-minute bucket map.
* `transcript_callback` / `monitor_cycle` / `finalizeOutput` embed the
  orchestration logic in `src/main.py` (Boundary Detector, Summary Publisher,
  Completion Monitor, final synchronous pass).
* `generate_course_suggestions` embeds `src/course_generator.py`, with the
  external collaborators (vector retrieval, LLM generation) represented by
  explicit outcome parameters.

Timestamps are modelled as rationals; the Python `int(timestamp // 60)` is
`⌊ts / 60⌋`.
-/

namespace MeetingPitch

/-- One timestamped unit of recognized text (a transcript fragment),
as stored by `RollingTranscript.add_transcript`. -/
structure Fragment where
  timestamp : ℚ
  text : String
deriving DecidableEq, Repr

/-- Embeds `int(timestamp // 60)` of `rolling_transcript.py` line 20 /
`main.py` line 30. -/
def minuteOf (ts : ℚ) : Int := (ts / 60).floor

/-- The computable `Rat.floor` used in `minuteOf` agrees with the
mathematical floor. -/
theorem minuteOf_eq_floor (ts : ℚ) : minuteOf ts = ⌊ts / 60⌋ := rfl

@[simp] theorem minuteOf_c0 : minuteOf 0 = 0 := by
  norm_num [minuteOf, Rat.floor_def']

@[simp] theorem minuteOf_c30 : minuteOf 30 = 0 := by
  norm_num [minuteOf, Rat.floor_def']

@[simp] theorem minuteOf_c65 : minuteOf 65 = 1 := by
  norm_num [minuteOf, Rat.floor_def']

@[simp] theorem minuteOf_c125 : minuteOf 125 = 2 := by
  norm_num [minuteOf, Rat.floor_def']

/-- Append `t` to the bucket of key `k`, creating the bucket at the end if
absent — the `minute_segments` update of `add_transcript` (lines 21–23),
with the Python dict embedded as an insertion-ordered association list. -/
def addToBucket (m : List (Int × List String)) (k : Int) (t : String) :
    List (Int × List String) :=
  match m with
  | [] => [(k, [t])]
  | (k', v) :: rest =>
      if k' = k then (k', v ++ [t]) :: rest else (k', v) :: addToBucket rest k t

/-- Embeds `minute_segments.get(minute_key, [])`: bucket of `k`, or `[]`. -/
def getBucket (m : List (Int × List String)) (k : Int) : List String :=
  match m with
  | [] => []
  | (k', v) :: rest => if k' = k then v else getBucket rest k

/-- State of `RollingTranscript` (`rolling_transcript.py` lines 11–14):
a `deque(maxlen=1000)` of fragments, the retention-window length, and the
per-minute buckets. -/
structure RollingTranscript where
  transcripts : List Fragment
  window_seconds : ℚ
  minute_segments : List (Int × List String)
deriving Repr

/-- State after `RollingTranscript(window_seconds=300)` as constructed by
`main`. -/
def RollingTranscript.fresh : RollingTranscript :=
  { transcripts := [], window_seconds := 300, minute_segments := [] }

/-- Embeds `deque(maxlen=1000).append`: when the buffer is full the oldest
entry is evicted from the left before appending. -/
def dequeAppend (l : List Fragment) (f : Fragment) : List Fragment :=
  if l.length < 1000 then l ++ [f] else l.drop 1 ++ [f]

/-- Embeds `RollingTranscript.add_transcript` (lines 16–23): append to the
capped buffer, then append the text into the bucket of
`int(timestamp // 60)`. -/
def RollingTranscript.add_transcript (s : RollingTranscript)
    (text : String) (timestamp : ℚ) : RollingTranscript :=
  { s with
    transcripts := dequeAppend s.transcripts ⟨timestamp, text⟩,
    minute_segments := addToBucket s.minute_segments (minuteOf timestamp) text }

/-- Embeds `RollingTranscript.get_transcripts` (lines 25–31): the entries of
the buffer whose age at `current_time` is within the retention window. -/
def RollingTranscript.get_transcripts (s : RollingTranscript)
    (current_time : ℚ) : List Fragment :=
  s.transcripts.filter (fun t => current_time - t.timestamp ≤ s.window_seconds)

/-- Embeds `RollingTranscript.get_minute_segment` (lines 33–35):
`" ".join(self.minute_segments.get(minute_key, []))`. -/
def RollingTranscript.get_minute_segment (s : RollingTranscript)
    (minute_key : Int) : String :=
  String.intercalate " " (getBucket s.minute_segments minute_key)

/-- Ascending insertion of an integer into a sorted list. -/
def insertSorted (x : Int) : List Int → List Int
  | [] => [x]
  | y :: ys => if x ≤ y then x :: y :: ys else y :: insertSorted x ys

/-- Embeds Python `sorted` on integer keys (ascending insertion sort). -/
def sortInts (l : List Int) : List Int := l.foldr insertSorted []

/-- Embeds `RollingTranscript.get_all_minute_keys` (lines 37–39):
sorted keys. -/
def RollingTranscript.get_all_minute_keys (s : RollingTranscript) : List Int :=
  sortInts (s.minute_segments.map Prod.fst)

/-- The JSON content written by `RollingTranscript.save_to_file`
(lines 41–47): `json.dump(list(self.transcripts), f)` — the whole buffer,
with no retention-window filtering. -/
def RollingTranscript.save_content (s : RollingTranscript) : List Fragment :=
  s.transcripts

/-- Feeding a sequence of fragments through `add_transcript` in order. -/
def ingest (s : RollingTranscript) (fs : List Fragment) : RollingTranscript :=
  fs.foldl (fun st f => st.add_transcript f.text f.timestamp) s

example : minuteOf (61/2) = 0 := by norm_num [minuteOf, Rat.floor_def']
example : (RollingTranscript.fresh.add_transcript "hello" 0 |>.add_transcript
    "world" 30).get_minute_segment 0 = "hello world" := by
  simp [RollingTranscript.add_transcript, RollingTranscript.fresh,
    RollingTranscript.get_minute_segment, addToBucket, getBucket, dequeAppend]
  rfl

/-! ## Bucket lemmas for the Segment Store -/

theorem getBucket_addToBucket (m : List (Int × List String)) (k k' : Int)
    (t : String) :
    getBucket (addToBucket m k' t) k =
      getBucket m k ++ if k = k' then [t] else [] := by
  induction m with
  | nil =>
      by_cases h : k = k'
      · simp [addToBucket, getBucket, h]
      · have h' : ¬ k' = k := fun hx => h hx.symm
        simp [addToBucket, getBucket, h, h']
  | cons p rest ih =>
      obtain ⟨k₀, v⟩ := p
      by_cases h0 : k₀ = k'
      · subst h0
        by_cases h1 : k₀ = k
        · subst h1
          simp [addToBucket, getBucket]
        · have h1' : ¬ k = k₀ := fun hx => h1 hx.symm
          simp [addToBucket, getBucket, h1, h1']
      · by_cases h1 : k₀ = k
        · subst h1
          have h0' : ¬ k₀ = k' := h0
          simp [addToBucket, getBucket, h0, h0']
        · simp [addToBucket, getBucket, h0, h1, ih]

theorem ingest_cons (s : RollingTranscript) (f : Fragment)
    (fs : List Fragment) :
    ingest s (f :: fs) = ingest (s.add_transcript f.text f.timestamp) fs := rfl

theorem minute_segments_ingest (s : RollingTranscript) (fs : List Fragment)
    (k : Int) :
    getBucket (ingest s fs).minute_segments k =
      getBucket s.minute_segments k ++
        (fs.filter fun f => minuteOf f.timestamp = k).map Fragment.text := by
  induction fs generalizing s with
  | nil => simp [ingest]
  | cons f fs ih =>
      rw [ingest_cons, ih]
      by_cases h : minuteOf f.timestamp = k
      · simp [RollingTranscript.add_transcript, getBucket_addToBucket, h]
      · simp [RollingTranscript.add_transcript, getBucket_addToBucket, h,
          Ne.symm h]

/-- C1: for every sequence of `add_transcript` calls (in particular any
sequence delivered in timestamp order) and every integer minute key `k`,
`get_minute_segment k` returns the space-joined concatenation, in arrival
order, of exactly those fragment texts whose `⌊timestamp/60⌋` equals `k`,
and returns the empty string when no fragment maps to `k`. -/
theorem C1_get_minute_segment_spec (fs : List Fragment) (k : Int) :
    (ingest RollingTranscript.fresh fs).get_minute_segment k =
      String.intercalate " "
        ((fs.filter fun f => minuteOf f.timestamp = k).map Fragment.text) ∧
    ((∀ f ∈ fs, minuteOf f.timestamp ≠ k) →
      (ingest RollingTranscript.fresh fs).get_minute_segment k = "") := by
  have hmain :
      (ingest RollingTranscript.fresh fs).get_minute_segment k =
        String.intercalate " "
          ((fs.filter fun f => minuteOf f.timestamp = k).map Fragment.text) := by
    unfold RollingTranscript.get_minute_segment
    rw [minute_segments_ingest]
    simp [RollingTranscript.fresh, getBucket]
  refine ⟨hmain, fun hnone => ?_⟩
  rw [hmain]
  have : (fs.filter fun f => minuteOf f.timestamp = k) = [] := by
    simp only [List.filter_eq_nil_iff]
    intro f hf
    simpa using hnone f hf
  rw [this]
  rfl

/-- C1 witness: Scenario A of the spec evaluated concretely. -/
theorem C1_witness :
    (ingest RollingTranscript.fresh
        [⟨0, "hello"⟩, ⟨30, "world"⟩, ⟨65, "next"⟩]).get_minute_segment 5
      = "" :=
  (C1_get_minute_segment_spec
      [⟨0, "hello"⟩, ⟨30, "world"⟩, ⟨65, "next"⟩] 5).2
    (by simp)

/-! ## Capped recency buffer (deque with maxlen 1000) -/

theorem dequeAppend_drop (pre : List Fragment) (f : Fragment) :
    dequeAppend (pre.drop (pre.length - 1000)) f =
      (pre ++ [f]).drop ((pre ++ [f]).length - 1000) := by
  by_cases h : pre.length < 1000
  · have h0 : pre.length - 1000 = 0 := by omega
    have h1 : pre.length + 1 - 1000 = 0 := by omega
    simp [dequeAppend, h0, h1, h]
  · have hlen : (pre.drop (pre.length - 1000)).length = 1000 := by
      simp [List.length_drop]; omega
    have hfull : ¬ (pre.drop (pre.length - 1000)).length < 1000 := by omega
    have hle : pre.length + 1 - 1000 ≤ pre.length := by omega
    simp only [dequeAppend, if_neg hfull, List.drop_drop]
    rw [List.length_append, List.length_singleton,
      List.drop_append_of_le_length hle]
    have harith : pre.length - 1000 + 1 = pre.length + 1 - 1000 := by omega
    rw [harith]

theorem transcripts_ingest (pre fs : List Fragment) (s : RollingTranscript)
    (hs : s.transcripts = pre.drop (pre.length - 1000)) :
    (ingest s fs).transcripts =
      (pre ++ fs).drop ((pre ++ fs).length - 1000) := by
  induction fs generalizing s pre with
  | nil => simpa using hs
  | cons f fs ih =>
      rw [ingest_cons]
      have hstep :
          (s.add_transcript f.text f.timestamp).transcripts =
            (pre ++ [f]).drop ((pre ++ [f]).length - 1000) := by
        simp [RollingTranscript.add_transcript, hs, dequeAppend_drop]
      have := ih (pre ++ [f]) _ hstep
      simpa using this

theorem transcripts_ingest_fresh (fs : List Fragment) :
    (ingest RollingTranscript.fresh fs).transcripts =
      fs.drop (fs.length - 1000) := by
  simpa using transcripts_ingest [] fs RollingTranscript.fresh rfl

/-- Total number of fragment texts held across all minute buckets. -/
def bucketsSize (m : List (Int × List String)) : Nat :=
  (m.map fun p => p.2.length).sum

theorem bucketsSize_addToBucket (m : List (Int × List String)) (k : Int)
    (t : String) : bucketsSize (addToBucket m k t) = bucketsSize m + 1 := by
  induction m with
  | nil => simp [addToBucket, bucketsSize]
  | cons p rest ih =>
      obtain ⟨k₀, v⟩ := p
      by_cases h : k₀ = k
      · simp [addToBucket, bucketsSize, h]
        omega
      · simp [addToBucket, bucketsSize, h] at ih ⊢
        omega

theorem bucketsSize_ingest (s : RollingTranscript) (fs : List Fragment) :
    bucketsSize (ingest s fs).minute_segments =
      bucketsSize s.minute_segments + fs.length := by
  induction fs generalizing s with
  | nil => simp [ingest]
  | cons f fs ih =>
      rw [ingest_cons, ih]
      simp [RollingTranscript.add_transcript, bucketsSize_addToBucket]
      omega

/-- C10: after any sequence of `add_transcript` calls, the fragment buffer
holds exactly the (at most) 1000 most recently added fragments — eviction is
by count alone (timestamps do not occur in the characterization) — while the
`minute_segments` mapping is never evicted: it retains one text per call ever
made. -/
theorem C10_buffer_cap_and_unbounded_buckets (fs : List Fragment) :
    (ingest RollingTranscript.fresh fs).transcripts =
        fs.drop (fs.length - 1000) ∧
    (ingest RollingTranscript.fresh fs).transcripts.length ≤ 1000 ∧
    bucketsSize (ingest RollingTranscript.fresh fs).minute_segments =
      fs.length := by
  refine ⟨transcripts_ingest_fresh fs, ?_, ?_⟩
  · rw [transcripts_ingest_fresh fs]
    simp only [List.length_drop]
    omega
  · rw [bucketsSize_ingest]
    simp [RollingTranscript.fresh, bucketsSize]

/-- Concrete store used to refute C9: a single fragment far older than the
retention window. -/
def rt9 : RollingTranscript := RollingTranscript.fresh.add_transcript "old" 0

/-- C9 counterexample: the export content is not the retention-windowed view.
At export time 1000 the only entry is 1000 seconds old — outside the
300-second window, so `get_transcripts` drops it — yet `save_to_file` writes
it anyway. -/
theorem C9_counterexample :
    rt9.save_content = [⟨0, "old"⟩] ∧
    rt9.get_transcripts 1000 = [] ∧
    (1000 : ℚ) - (0 : ℚ) > rt9.window_seconds := by
  have hget : rt9.get_transcripts 1000 = [] := by
    simp only [RollingTranscript.get_transcripts, rt9,
      RollingTranscript.add_transcript, RollingTranscript.fresh, dequeAppend]
    norm_num
  refine ⟨rfl, hget, ?_⟩
  show (1000 : ℚ) - 0 > 300
  norm_num

/-- C9 amended: `save_to_file` writes the whole capped buffer — the at most
1000 most recently added `{timestamp, text}` entries — with no
retention-window filtering; the window applies only to `get_transcripts`. -/
theorem C9_amended_export_whole_buffer (fs : List Fragment) :
    (ingest RollingTranscript.fresh fs).save_content =
      fs.drop (fs.length - 1000) :=
  transcripts_ingest_fresh fs

/-! ## Boundary Detector / Summary Publisher (`main.py` lines 27–53)

The summarizer collaborator `generate_minute_summary` never raises (it
catches every exception and returns `""`, `summarizer.py` lines 40–42), so it
is modelled as a total function parameter `gms`. -/

/-- One entry of `output_data["minute_summaries"]`. -/
structure MinuteRecord where
  minute : Int
  summary : String
deriving DecidableEq, Repr

/-- Mutable state touched by `transcript_callback`: the store, the
callback-attached cursor attribute `last_summarized_minute` (absent before
the first call), the `minute_summaries` context list, and the
`output_data["minute_summaries"]` sequence. -/
structure SessionState where
  store : RollingTranscript
  last_summarized_minute : Option Int
  minute_summaries : List String
  output_minute_summaries : List MinuteRecord

/-- Session state at the top of `main` before any fragment. -/
def SessionState.init : SessionState :=
  ⟨RollingTranscript.fresh, none, [], []⟩

/-- Embeds `transcript_callback` (`main.py` lines 27–53): add the fragment to
the store, initialize the cursor to `current_minute - 1` if absent; when
`current_minute` exceeds the cursor, fetch the previous minute's segment,
summarize and append a record when it is non-empty, then advance the
cursor. -/
def transcript_callback (gms : String → List String → String)
    (s : SessionState) (text : String) (timestamp : ℚ) : SessionState :=
  let store := s.store.add_transcript text timestamp
  let current_minute := minuteOf timestamp
  let cursor := s.last_summarized_minute.getD (current_minute - 1)
  if current_minute > cursor then
    let prev_minute := cursor
    let minute_transcript := store.get_minute_segment prev_minute
    if minute_transcript ≠ "" then
      { store := store,
        last_summarized_minute := some current_minute,
        minute_summaries :=
          s.minute_summaries ++ [gms minute_transcript s.minute_summaries],
        output_minute_summaries :=
          s.output_minute_summaries ++
            [⟨prev_minute, gms minute_transcript s.minute_summaries⟩] }
    else
      { store := store,
        last_summarized_minute := some current_minute,
        minute_summaries := s.minute_summaries,
        output_minute_summaries := s.output_minute_summaries }
  else
    { store := store,
      last_summarized_minute := some cursor,
      minute_summaries := s.minute_summaries,
      output_minute_summaries := s.output_minute_summaries }

/-- Driving a whole fragment sequence through `transcript_callback`. -/
def runCallbacks (gms : String → List String → String)
    (s : SessionState) (fs : List Fragment) : SessionState :=
  fs.foldl (fun st f => transcript_callback gms st f.text f.timestamp) s

theorem runCallbacks_cons (gms : String → List String → String)
    (s : SessionState) (f : Fragment) (fs : List Fragment) :
    runCallbacks gms s (f :: fs) =
      runCallbacks gms (transcript_callback gms s f.text f.timestamp) fs := rfl

theorem store_transcript_callback (gms : String → List String → String)
    (s : SessionState) (text : String) (ts : ℚ) :
    (transcript_callback gms s text ts).store =
      s.store.add_transcript text ts := by
  simp only [transcript_callback]
  split
  · split <;> rfl
  · rfl

theorem store_runCallbacks (gms : String → List String → String)
    (s : SessionState) (fs : List Fragment) :
    (runCallbacks gms s fs).store = ingest s.store fs := by
  induction fs generalizing s with
  | nil => rfl
  | cons f fs ih =>
      rw [runCallbacks_cons, ingest_cons, ih, store_transcript_callback]

/-- Cursor/record invariant: before the first fragment no record exists; once
the cursor holds `c`, the recorded minutes are strictly increasing and all
below `c`. -/
def CursorInv (s : SessionState) : Prop :=
  (s.last_summarized_minute = none → s.output_minute_summaries = []) ∧
  ∀ c, s.last_summarized_minute = some c →
    (s.output_minute_summaries.map MinuteRecord.minute).Pairwise (· < ·) ∧
    ∀ m ∈ s.output_minute_summaries.map MinuteRecord.minute, m < c

theorem cursorInv_step (gms : String → List String → String)
    (s : SessionState) (text : String) (ts : ℚ) (h : CursorInv s) :
    CursorInv (transcript_callback gms s text ts) := by
  obtain ⟨hnone, hsome⟩ := h
  unfold transcript_callback
  cases hc : s.last_summarized_minute with
  | none =>
      have hout : s.output_minute_summaries = [] := hnone hc
      simp only [hc, Option.getD_none, hout]
      have hgt : minuteOf ts > minuteOf ts - 1 := by omega
      rw [if_pos hgt]
      split
      · refine ⟨fun hx => by simp at hx, fun c hcv => ?_⟩
        simp only [Option.some.injEq] at hcv
        subst hcv
        refine ⟨by simp, ?_⟩
        intro m hm
        simp only [List.nil_append, List.map_cons, List.map_nil,
          List.mem_singleton] at hm
        subst hm
        omega
      · exact ⟨fun hx => by simp at hx,
          fun c hcv => by constructor <;> simp⟩
  | some c =>
      obtain ⟨hpw, hbnd⟩ := hsome c hc
      simp only [hc, Option.getD_some]
      by_cases hgt : minuteOf ts > c
      · rw [if_pos hgt]
        split
        · refine ⟨fun hx => by simp at hx, fun c' hcv => ?_⟩
          simp only [Option.some.injEq] at hcv
          subst hcv
          constructor
          · simp only [List.map_append, List.map_cons, List.map_nil]
            rw [List.pairwise_append]
            refine ⟨hpw, by simp, ?_⟩
            intro a ha b hb
            simp at hb
            subst hb
            exact hbnd a ha
          · intro m hm
            simp only [List.map_append, List.map_cons, List.map_nil,
              List.mem_append, List.mem_cons, List.not_mem_nil,
              or_false] at hm
            rcases hm with hm | hm
            · exact lt_trans (hbnd m hm) hgt
            · subst hm; exact hgt
        · refine ⟨fun hx => by simp at hx, fun c' hcv => ?_⟩
          simp only [Option.some.injEq] at hcv
          subst hcv
          exact ⟨hpw, fun m hm => lt_trans (hbnd m hm) hgt⟩
      · rw [if_neg hgt]
        refine ⟨fun hx => by simp at hx, fun c' hcv => ?_⟩
        simp only [Option.some.injEq] at hcv
        subst hcv
        exact ⟨hpw, hbnd⟩

theorem cursorInv_run (gms : String → List String → String)
    (s : SessionState) (fs : List Fragment) (h : CursorInv s) :
    CursorInv (runCallbacks gms s fs) := by
  induction fs generalizing s with
  | nil => exact h
  | cons f fs ih =>
      rw [runCallbacks_cons]
      exact ih _ (cursorInv_step gms s f.text f.timestamp h)

/-- Every recorded minute has a non-empty bucket in the store. -/
def BucketInv (s : SessionState) : Prop :=
  ∀ r ∈ s.output_minute_summaries,
    getBucket s.store.minute_segments r.minute ≠ []

theorem intercalate_ne_empty_of_nonempty {l : List String}
    (h : String.intercalate " " l ≠ "") : l ≠ [] := by
  intro he
  subst he
  exact h rfl

theorem getBucket_add_ne_nil (s : RollingTranscript) (text : String)
    (ts : ℚ) (k : Int)
    (h : getBucket s.minute_segments k ≠ []) :
    getBucket (s.add_transcript text ts).minute_segments k ≠ [] := by
  unfold RollingTranscript.add_transcript
  simp only [getBucket_addToBucket]
  intro he
  rcases List.append_eq_nil.mp he with ⟨h1, _⟩
  exact h h1

theorem bucketInv_step (gms : String → List String → String)
    (s : SessionState) (text : String) (ts : ℚ) (h : BucketInv s) :
    BucketInv (transcript_callback gms s text ts) := by
  simp only [transcript_callback]
  split
  · split
    · intro r hr
      simp only [List.mem_append, List.mem_singleton] at hr
      rcases hr with hr | hr
      · exact getBucket_add_ne_nil _ _ _ _ (h r hr)
      · subst hr
        intro he
        rename_i hseg
        apply hseg
        show (s.store.add_transcript text ts).get_minute_segment _ = ""
        unfold RollingTranscript.get_minute_segment
        rw [he]
        rfl
    · intro r hr
      exact getBucket_add_ne_nil _ _ _ _ (h r hr)
  · intro r hr
    exact getBucket_add_ne_nil _ _ _ _ (h r hr)

theorem bucketInv_run (gms : String → List String → String)
    (s : SessionState) (fs : List Fragment) (h : BucketInv s) :
    BucketInv (runCallbacks gms s fs) := by
  induction fs generalizing s with
  | nil => exact h
  | cons f fs ih =>
      rw [runCallbacks_cons]
      exact ih _ (bucketInv_step gms s f.text f.timestamp h)

/-- C2: the Boundary Detector behaves as specified —
(1) on the first fragment the cursor is initialized to that fragment's
minute minus 1 (the step from an unset cursor coincides with the step from a
cursor holding `minuteOf ts - 1`);
(2) on a fragment whose minute exceeds the cursor `c`, the minute `c` (not
the current one) is finalized: its segment is fetched from the updated store
and, when non-empty, summarized and recorded, after which the cursor is set
to the current minute; a fragment whose minute does not exceed the cursor
changes neither the cursor nor the records;
(3) the cursor is monotonically non-decreasing at every step;
(4) over any run from the initial state the recorded minutes are strictly
increasing, so finalization fires for each minute at most once;
(5) a minute containing zero fragments never yields a finalization record. -/
theorem C2_boundary_detector (gms : String → List String → String) :
    (∀ (st : RollingTranscript) (ms : List String) (out : List MinuteRecord)
        (text : String) (ts : ℚ),
      transcript_callback gms ⟨st, none, ms, out⟩ text ts =
        transcript_callback gms ⟨st, some (minuteOf ts - 1), ms, out⟩ text ts) ∧
    (∀ (s : SessionState) (c : Int) (text : String) (ts : ℚ),
      s.last_summarized_minute = some c →
      (minuteOf ts > c →
        (transcript_callback gms s text ts).last_summarized_minute =
            some (minuteOf ts) ∧
        (transcript_callback gms s text ts).output_minute_summaries =
          s.output_minute_summaries ++
            (if (s.store.add_transcript text ts).get_minute_segment c ≠ ""
             then [⟨c, gms ((s.store.add_transcript text ts).get_minute_segment c)
                      s.minute_summaries⟩]
             else [])) ∧
      (¬ minuteOf ts > c →
        (transcript_callback gms s text ts).last_summarized_minute = some c ∧
        (transcript_callback gms s text ts).output_minute_summaries =
          s.output_minute_summaries)) ∧
    (∀ (s : SessionState) (c : Int) (text : String) (ts : ℚ),
      s.last_summarized_minute = some c →
      c ≤ ((transcript_callback gms s text ts).last_summarized_minute).getD c) ∧
    (∀ fs : List Fragment,
      ((runCallbacks gms SessionState.init fs).output_minute_summaries.map
        MinuteRecord.minute).Pairwise (· < ·)) ∧
    (∀ (fs : List Fragment) (m : Int),
      (∀ f ∈ fs, minuteOf f.timestamp ≠ m) →
      ∀ r ∈ (runCallbacks gms SessionState.init fs).output_minute_summaries,
        r.minute ≠ m) := by
  refine ⟨?_, ?_, ?_, ?_, ?_⟩
  · intro st ms out text ts
    rfl
  · intro s c text ts hc
    constructor
    · intro hgt
      unfold transcript_callback
      simp only [hc, Option.getD_some]
      rw [if_pos hgt]
      split
      · exact ⟨rfl, rfl⟩
      · simp
    · intro hgt
      unfold transcript_callback
      simp only [hc, Option.getD_some]
      rw [if_neg hgt]
      exact ⟨rfl, rfl⟩
  · intro s c text ts hc
    unfold transcript_callback
    simp only [hc, Option.getD_some]
    by_cases hgt : minuteOf ts > c
    · rw [if_pos hgt]
      split <;> simp <;> omega
    · rw [if_neg hgt]
      simp
  · intro fs
    have hinv : CursorInv (runCallbacks gms SessionState.init fs) :=
      cursorInv_run gms _ fs ⟨fun _ => rfl, fun c hc => by
        simp [SessionState.init] at hc⟩
    obtain ⟨hnone, hsome⟩ := hinv
    cases hc : (runCallbacks gms SessionState.init fs).last_summarized_minute
      with
    | none => rw [hnone hc]; simp
    | some c => exact (hsome c hc).1
  · intro fs m hnone r hr hrm
    have hinv : BucketInv (runCallbacks gms SessionState.init fs) :=
      bucketInv_run gms _ fs (fun r hr => by
        simp [SessionState.init] at hr)
    have hbucket := hinv r hr
    rw [store_runCallbacks] at hbucket
    rw [minute_segments_ingest] at hbucket
    apply hbucket
    have hfilter : (fs.filter fun f => minuteOf f.timestamp = r.minute) = [] := by
      simp only [List.filter_eq_nil_iff]
      intro f hf
      simp only [decide_eq_true_eq]
      rw [hrm]
      exact hnone f hf
    rw [hfilter]
    rfl

/-- C2 witness: Scenario A — the third fragment (minute 1) finalizes minute
0 with segment `"hello world"`. -/
theorem C2_witness :
    (transcript_callback (fun t _ => t)
        ⟨RollingTranscript.fresh.add_transcript "hello" 0 |>.add_transcript
            "world" 30,
          some 0, [], []⟩ "next" 65).last_summarized_minute = some 1 ∧
    (transcript_callback (fun t _ => t)
        ⟨RollingTranscript.fresh.add_transcript "hello" 0 |>.add_transcript
            "world" 30,
          some 0, [], []⟩ "next" 65).output_minute_summaries =
      [] ++ [⟨0, "hello world"⟩] := by
  have h :=
    ((C2_boundary_detector (fun t _ => t)).2.1
        ⟨RollingTranscript.fresh.add_transcript "hello" 0 |>.add_transcript
            "world" 30,
          some 0, [], []⟩ 0 "next" 65 rfl).1
  have hseg :
      ((RollingTranscript.fresh.add_transcript "hello" 0 |>.add_transcript
          "world" 30).add_transcript "next" 65).get_minute_segment 0 =
        "hello world" := by
    simp [RollingTranscript.add_transcript, RollingTranscript.fresh,
      RollingTranscript.get_minute_segment, addToBucket, getBucket,
      dequeAppend]
    rfl
  have hgt : minuteOf (65 : ℚ) > 0 := by rw [minuteOf_c65]; omega
  obtain ⟨h1, h2⟩ := h hgt
  refine ⟨by rw [h1, minuteOf_c65], ?_⟩
  rw [h2, hseg]
  simp

/-! ## Transition equations for `transcript_callback` -/

theorem callback_fire (gms : String → List String → String)
    (s : SessionState) (c : Int) (text : String) (ts : ℚ)
    (hc : s.last_summarized_minute = some c) (hgt : minuteOf ts > c)
    (hseg : (s.store.add_transcript text ts).get_minute_segment c ≠ "") :
    transcript_callback gms s text ts =
      { store := s.store.add_transcript text ts,
        last_summarized_minute := some (minuteOf ts),
        minute_summaries := s.minute_summaries ++
          [gms ((s.store.add_transcript text ts).get_minute_segment c)
            s.minute_summaries],
        output_minute_summaries := s.output_minute_summaries ++
          [⟨c, gms ((s.store.add_transcript text ts).get_minute_segment c)
            s.minute_summaries⟩] } := by
  unfold transcript_callback
  simp only [hc, Option.getD_some]
  rw [if_pos hgt, if_pos hseg]

theorem callback_skip_empty (gms : String → List String → String)
    (s : SessionState) (c : Int) (text : String) (ts : ℚ)
    (hc : s.last_summarized_minute = some c) (hgt : minuteOf ts > c)
    (hseg : (s.store.add_transcript text ts).get_minute_segment c = "") :
    transcript_callback gms s text ts =
      { store := s.store.add_transcript text ts,
        last_summarized_minute := some (minuteOf ts),
        minute_summaries := s.minute_summaries,
        output_minute_summaries := s.output_minute_summaries } := by
  unfold transcript_callback
  simp only [hc, Option.getD_some]
  rw [if_pos hgt, if_neg (by simpa using hseg)]

theorem callback_first_eq (gms : String → List String → String)
    (st : RollingTranscript) (ms : List String) (out : List MinuteRecord)
    (text : String) (ts : ℚ) :
    transcript_callback gms ⟨st, none, ms, out⟩ text ts =
      transcript_callback gms ⟨st, some (minuteOf ts - 1), ms, out⟩ text ts :=
  rfl

/-- C4 counterexample: with the summarizer in its failure mode (it catches
every exception and returns `""`, per `summarizer.py` lines 40–42), the
fragment at minute 1 still appends a record for minute 0 — with an empty
summary — contradicting the claim that no record is appended on failure or
empty result. -/
theorem C4_counterexample :
    (runCallbacks (fun _ _ => "") SessionState.init
        [⟨0, "hello"⟩, ⟨65, "world"⟩]).output_minute_summaries =
      [⟨0, ""⟩] := by
  have h1 :
      transcript_callback (fun _ _ => "") SessionState.init "hello" 0 =
        ⟨RollingTranscript.fresh.add_transcript "hello" 0, some 0, [], []⟩ := by
    rw [show SessionState.init =
        (⟨RollingTranscript.fresh, none, [], []⟩ : SessionState) from rfl,
      callback_first_eq]
    rw [callback_skip_empty (fun _ _ => "") _ (minuteOf 0 - 1) "hello" 0 rfl
        (by omega)
        (by
          simp [RollingTranscript.add_transcript, RollingTranscript.fresh,
            RollingTranscript.get_minute_segment, addToBucket, getBucket,
            minuteOf_c0]
          rfl)]
    simp [minuteOf_c0]
  have hseg :
      ((RollingTranscript.fresh.add_transcript "hello" 0).add_transcript
          "world" 65).get_minute_segment 0 = "hello" := by
    simp [RollingTranscript.add_transcript, RollingTranscript.fresh,
      RollingTranscript.get_minute_segment, addToBucket, getBucket,
      minuteOf_c0, minuteOf_c65]
    rfl
  have h2 :
      transcript_callback (fun _ _ => "")
          ⟨RollingTranscript.fresh.add_transcript "hello" 0, some 0, [], []⟩
          "world" 65 =
        ⟨(RollingTranscript.fresh.add_transcript "hello" 0).add_transcript
            "world" 65,
          some 1, [""], [⟨0, ""⟩]⟩ := by
    rw [callback_fire (fun _ _ => "") _ 0 "world" 65 rfl
        (by rw [minuteOf_c65]; omega) (by rw [hseg]; simp)]
    simp [minuteOf_c65]
  show (runCallbacks (fun _ _ => "")
      (transcript_callback (fun _ _ => "") SessionState.init "hello" 0)
      [⟨65, "world"⟩]).output_minute_summaries = [⟨0, ""⟩]
  rw [h1]
  show (transcript_callback (fun _ _ => "")
      ⟨RollingTranscript.fresh.add_transcript "hello" 0, some 0, [], []⟩
      "world" 65).output_minute_summaries = [⟨0, ""⟩]
  rw [h2]

/-- C4 amended: for every finalized minute whose segment text is non-empty,
a MinuteSummary record IS appended regardless of the summarizer outcome: the
collaborator never hard-fails (exceptions are caught inside
`generate_minute_summary`, which then returns `""`), and an empty summary —
the failure encoding — is recorded rather than dropped. -/
theorem C4_amended_record_appended_even_on_failure
    (gms : String → List String → String) (s : SessionState) (c : Int)
    (text : String) (ts : ℚ)
    (hc : s.last_summarized_minute = some c) (hgt : minuteOf ts > c)
    (hseg : (s.store.add_transcript text ts).get_minute_segment c ≠ "") :
    (transcript_callback gms s text ts).output_minute_summaries =
      s.output_minute_summaries ++
        [⟨c, gms ((s.store.add_transcript text ts).get_minute_segment c)
            s.minute_summaries⟩] := by
  rw [callback_fire gms s c text ts hc hgt hseg]

/-- C4 witness: the amended claim applied to the failing summarizer at the
counterexample input. -/
theorem C4_witness :
    (transcript_callback (fun _ _ => "")
        ⟨RollingTranscript.fresh.add_transcript "hello" 0, some 0, [], []⟩
        "world" 65).output_minute_summaries = [] ++ [⟨0, ""⟩] := by
  have hseg :
      ((RollingTranscript.fresh.add_transcript "hello" 0).add_transcript
          "world" 65).get_minute_segment 0 = "hello" := by
    simp [RollingTranscript.add_transcript, RollingTranscript.fresh,
      RollingTranscript.get_minute_segment, addToBucket, getBucket,
      minuteOf_c0, minuteOf_c65]
    rfl
  rw [C4_amended_record_appended_even_on_failure (fun _ _ => "") _ 0 "world" 65
      rfl (by rw [minuteOf_c65]; omega) (by rw [hseg]; simp)]

/-! ## Completion Monitor (`main.py` lines 55–90) -/

/-- Embeds Python `max` over a non-empty list of minutes (`None` when the
list is empty; the callers guard against that case). -/
def maxMinute : List Int → Option Int
  | [] => none
  | m :: ms => some (ms.foldl max m)

/-- One invocation of the enrichment collaborator, recording the monitor's
`last_processed_minute` value as it stands at the moment of the call. -/
structure EnrichCall where
  lastProcessedAtCall : Int
  latest : Int
deriving DecidableEq, Repr

/-- Embeds one poll cycle of `monitor_summaries` (lines 60–70): read the
minute entries of the summary document; when non-empty, compute the maximum
minute; when it exceeds the cursor, advance the cursor first and only then
invoke the enrichment collaborator. -/
def monitor_cycle (entries : List Int) (last_processed_minute : Int) :
    Int × Option EnrichCall :=
  match maxMinute entries with
  | none => (last_processed_minute, none)
  | some current_latest_minute =>
      if current_latest_minute > last_processed_minute then
        let advanced := current_latest_minute
        (advanced, some ⟨advanced, current_latest_minute⟩)
      else (last_processed_minute, none)

/-- Repeated poll cycles over a sequence of observed documents, collecting
the enrichment calls. -/
def monitor_run (docs : List (List Int)) (last : Int) :
    Int × List EnrichCall :=
  docs.foldl
    (fun st doc =>
      let r := monitor_cycle doc st.1
      (r.1, st.2 ++ r.2.toList))
    (last, [])

theorem foldl_max_attained (a : Int) (l : List Int) :
    l.foldl max a = a ∨ l.foldl max a ∈ l := by
  induction l generalizing a with
  | nil => left; rfl
  | cons x xs ih =>
      rcases ih (max a x) with h | h
      · rcases max_cases a x with ⟨he, _⟩ | ⟨he, _⟩
        · left; rw [List.foldl_cons, h, he]
        · right; rw [List.foldl_cons, h, he]; simp
      · right; simp [h]

theorem maxMinute_mem (l : List Int) (M : Int) (h : maxMinute l = some M) :
    M ∈ l := by
  cases l with
  | nil => simp [maxMinute] at h
  | cons m ms =>
      simp only [maxMinute, Option.some.injEq] at h
      rcases foldl_max_attained m ms with hx | hx
      · rw [← h, hx]; simp
      · rw [← h]; simp [hx]

theorem cycle_call_latest (d : List Int) (start : Int) (c : EnrichCall)
    (h : c ∈ (monitor_cycle d start).2.toList) :
    maxMinute d = some c.latest := by
  unfold monitor_cycle at h
  cases hm : maxMinute d with
  | none => rw [hm] at h; simp at h
  | some M' =>
      rw [hm] at h
      simp only [] at h
      by_cases hgt : M' > start
      · rw [if_pos hgt] at h
        simp at h
        subst h
        rfl
      · rw [if_neg hgt] at h
        simp at h

theorem monitor_fold_calls (docs : List (List Int)) (start : Int)
    (acc : List EnrichCall) :
    ∀ c ∈ (docs.foldl
        (fun st doc =>
          let r := monitor_cycle doc st.1
          (r.1, st.2 ++ r.2.toList)) (start, acc)).2,
      c ∈ acc ∨ ∃ doc ∈ docs, maxMinute doc = some c.latest := by
  induction docs generalizing start acc with
  | nil =>
      intro c hc
      exact Or.inl hc
  | cons d ds ih =>
      intro c hc
      simp only [List.foldl_cons] at hc
      rcases ih _ _ c hc with h | ⟨doc, hd, hm⟩
      · rcases List.mem_append.mp h with h' | h'
        · exact Or.inl h'
        · exact Or.inr ⟨d, List.mem_cons_self _ _, cycle_call_latest d start c h'⟩
      · exact Or.inr ⟨doc, List.mem_cons_of_mem _ hd, hm⟩

/-- C3: in a poll cycle whose document has entries with maximum minute `M`
exceeding the cursor, the cursor is advanced to `M` before the enrichment
collaborator is invoked (the call observes the already-advanced cursor), and
exactly one enrichment — for `M`, the latest minute — is triggered in that
cycle; over any run, every enriched minute was the document maximum at some
poll tick, so a minute that is never the maximum is never enriched. -/
theorem C3_monitor_latest_wins (entries : List Int) (last M : Int)
    (hmax : maxMinute entries = some M) :
    (M > last →
      monitor_cycle entries last = (M, some ⟨M, M⟩)) ∧
    (¬ M > last → monitor_cycle entries last = (last, none)) ∧
    (∀ (docs : List (List Int)) (l0 : Int),
      ∀ c ∈ (monitor_run docs l0).2,
        ∃ doc ∈ docs, maxMinute doc = some c.latest) := by
  refine ⟨?_, ?_, ?_⟩
  · intro hgt
    simp [monitor_cycle, hmax, hgt]
  · intro hgt
    simp [monitor_cycle, hmax, hgt]
  · intro docs l0 c hc
    rcases monitor_fold_calls docs l0 [] c hc with h | h
    · simp at h
    · exact h

/-- C3 witness: the spec's dedup scenario — between two polls minutes
`[0,1,2]` appear; the single cycle enriches only the latest minute `2`,
advancing the cursor before the call. -/
theorem C3_witness :
    monitor_cycle [0, 1, 2] (-1) = (2, some ⟨2, 2⟩) :=
  (C3_monitor_latest_wins [0, 1, 2] (-1) 2 (by decide)).1 (by decide)

/-! ## Enrichment collaborator (`src/course_generator.py`)

External services (file read, OpenSearch retrieval, the Bedrock LLM call
with its 30-second `asyncio.timeout`) appear as explicit outcome parameters;
the function's own control flow (lines 28–166) is embedded faithfully. -/

/-- One element of the parsed suggestions JSON: either a course object or
the placeholder message object. -/
inductive SuggestionItem
  | course (course_name description : String)
  | message (text : String)
deriving DecidableEq, Repr

/-- Placeholder used by `course_generator.py` for every soft-failure path:
`[{"message": "nothing yet please wait till process"}]`. -/
def placeholder_suggestions : List SuggestionItem :=
  [.message "nothing yet please wait till process"]

/-- The record returned by `generate_course_suggestions`
(`course_generator.py` lines 52–59, 99–106, 156–163). -/
structure EnrichmentResult where
  summary : String
  meeting_time : Int
  retrieved_docs_count : Nat
  course_suggestions : List SuggestionItem
  error : String
  timestamp : String
deriving DecidableEq, Repr

/-- The `"overall"` object of output document A. -/
structure Overall where
  title : String
  summary : String
deriving DecidableEq, Repr

/-- Output document A: `{"minute_summaries": [...], "overall": {...}}`
(`main.py` line 24); `overall = none` models the initial `{}`. -/
structure OutputData where
  minute_summaries : List MinuteRecord
  overall : Option Overall
deriving DecidableEq, Repr

/-- Embeds `data.get("overall", {}).get("summary", "")`
(`course_generator.py` line 36). -/
def OutputData.overall_summary_field (d : OutputData) : String :=
  match d.overall with
  | none => ""
  | some o => o.summary

/-- Outcome of opening and JSON-parsing the summary document
(`course_generator.py` lines 34–35). -/
inductive SummaryLoad
  | failure (msg : String)
  | success (data : OutputData)

/-- Outcome of the MMR vector retrieval (lines 85–97). -/
inductive RetrievalOutcome
  | ok (docs : List String)
  | err (msg : String)

/-- Outcome of the LLM suggestion generation under `asyncio.timeout(30)`
(lines 139–154): parsed JSON suggestions, an exception, or the timeout. -/
inductive GenOutcome
  | ok (parsed : List SuggestionItem)
  | genError (msg : String)
  | timeout

/-- Embeds the summary-selection step (lines 33–49): prefer the non-empty
overall summary with `meeting_time = 0`; otherwise use the summary of the
latest minute entry. Any exception in this block — including the explicit
`ValueError("No summaries found")` and a failed lookup — is caught by the
same handler, modelled as `Except.error` with the exception text. -/
def load_latest_summary (load : SummaryLoad) : Except String (String × Int) :=
  match load with
  | .failure msg => .error msg
  | .success data =>
      if data.overall_summary_field ≠ "" then
        .ok (data.overall_summary_field, 0)
      else
        match maxMinute (data.minute_summaries.map MinuteRecord.minute) with
        | none => .error "No summaries found"
        | some latest_minute =>
            match data.minute_summaries.find?
                (fun e => e.minute = latest_minute) with
            | some entry => .ok (entry.summary, latest_minute)
            | none => .error "StopIteration"

/-- Embeds `generate_course_suggestions` (lines 28–166): load failure and
retrieval failure return early records with the failure text in `error`;
generation failure and timeout fall through to the normal output record with
`error = ""` and the placeholder suggestions. -/
def generate_course_suggestions (load : SummaryLoad)
    (retr : RetrievalOutcome) (gen : GenOutcome) (now : String) :
    EnrichmentResult :=
  match load_latest_summary load with
  | .error e =>
      { summary := "Error loading summary: " ++ e, meeting_time := -1,
        retrieved_docs_count := 0,
        course_suggestions := placeholder_suggestions,
        error := e, timestamp := now }
  | .ok (overall_summary, meeting_time) =>
      match retr with
      | .err e =>
          { summary := overall_summary, meeting_time := meeting_time,
            retrieved_docs_count := 0,
            course_suggestions := placeholder_suggestions,
            error := "Error retrieving documents: " ++ e, timestamp := now }
      | .ok retrieved_docs =>
          let suggestions :=
            match gen with
            | .ok parsed =>
                if parsed = [] then placeholder_suggestions else parsed
            | .genError _ => placeholder_suggestions
            | .timeout => placeholder_suggestions
          { summary := overall_summary, meeting_time := meeting_time,
            retrieved_docs_count := retrieved_docs.length,
            course_suggestions := suggestions,
            error := "", timestamp := now }

/-- Concrete summary document with a non-empty overall summary. -/
def docA7 : OutputData := ⟨[⟨0, "S0"⟩], some ⟨"T", "S"⟩⟩

/-- C7 counterexample: on the 30-unit timeout the produced record's `error`
field is the empty string — the timeout is NOT encoded in `error`; it only
surfaces as the placeholder suggestions list. -/
theorem C7_counterexample :
    (generate_course_suggestions (.success docA7) (.ok []) .timeout
        "t0").error = "" ∧
    (generate_course_suggestions (.success docA7) (.ok []) .timeout
        "t0").course_suggestions = placeholder_suggestions := by
  constructor <;> rfl

/-- C7 amended: every invocation totally produces a structurally valid
record (the embedding is a total function, so no failure propagates);
load failures and retrieval failures are encoded in the `error` field, but
generation failure and the 30-unit timeout leave `error` empty and are
reflected only by the placeholder suggestions list. -/
theorem C7_amended_error_encoding (load : SummaryLoad)
    (retr : RetrievalOutcome) (gen : GenOutcome) (now : String) :
    (∀ e, load_latest_summary load = .error e →
      (generate_course_suggestions load retr gen now).error = e ∧
      (generate_course_suggestions load retr gen now).meeting_time = -1 ∧
      (generate_course_suggestions load retr gen now).course_suggestions =
        placeholder_suggestions) ∧
    (∀ s mt e, load_latest_summary load = .ok (s, mt) → retr = .err e →
      (generate_course_suggestions load retr gen now).error =
        "Error retrieving documents: " ++ e ∧
      (generate_course_suggestions load retr gen now).meeting_time = mt) ∧
    (∀ s mt docs, load_latest_summary load = .ok (s, mt) → retr = .ok docs →
      (generate_course_suggestions load retr gen now).error = "" ∧
      (generate_course_suggestions load retr gen now).meeting_time = mt ∧
      ((gen = .timeout ∨ ∃ m, gen = .genError m) →
        (generate_course_suggestions load retr gen now).course_suggestions =
          placeholder_suggestions)) := by
  refine ⟨?_, ?_, ?_⟩
  · intro e he
    unfold generate_course_suggestions
    rw [he]
    exact ⟨rfl, rfl, rfl⟩
  · intro s mt e hok hretr
    unfold generate_course_suggestions
    rw [hok, hretr]
    exact ⟨rfl, rfl⟩
  · intro s mt docs hok hretr
    unfold generate_course_suggestions
    rw [hok, hretr]
    refine ⟨rfl, rfl, ?_⟩
    rintro (hg | ⟨m, hg⟩) <;> rw [hg]

/-- C7 witness: the amended claim at a concrete retrieval failure. -/
theorem C7_witness :
    (generate_course_suggestions (.success docA7) (.err "boom") .timeout
        "t0").error = "Error retrieving documents: " ++ "boom" ∧
    (generate_course_suggestions (.success docA7) (.err "boom") .timeout
        "t0").meeting_time = 0 :=
  (C7_amended_error_encoding (.success docA7) (.err "boom") .timeout
      "t0").2.1 "S" 0 "boom" rfl rfl

/-! ## Writes of output document B (`main.py` lines 71–85 and 146–157) -/

/-- Outcome of reading and JSON-parsing the existing
`course_suggestions.json` in a monitor cycle (lines 72–79): the file may be
absent (`FileNotFoundError`), unparseable (`json.load` raises something
else), or parse to a JSON list / a non-list value. -/
inductive DocBRead
  | absent
  | unparseable
  | parsedList (l : List EnrichmentResult)
  | parsedOther

/-- Embeds the monitor's append-and-save of document B (lines 71–85):
`existing_suggestions = []`; reading an absent file is passed over and a
non-list parse is reset to `[]`; the new result is appended and the whole
list written. An unparseable file raises out of the inner
`except FileNotFoundError` into the surrounding `except Exception`
(line 84), which logs and skips the write — modelled as `none`; the monitor
cycle itself continues. -/
def monitor_save_suggestions (read : DocBRead) (r : EnrichmentResult) :
    Option (List EnrichmentResult) :=
  match read with
  | .absent => some ([] ++ [r])
  | .unparseable => none
  | .parsedList existing_suggestions => some (existing_suggestions ++ [r])
  | .parsedOther => some ([] ++ [r])

/-- Embeds the final synchronous write of document B (lines 151–152):
`json.dump([course_suggestions], f)` — the file is replaced by a
single-element list; the existing content is never read. -/
def final_course_write (r : EnrichmentResult) : List EnrichmentResult := [r]

/-- Concrete enrichment record (meeting_time 0). -/
def er0 : EnrichmentResult := ⟨"s0", 0, 0, placeholder_suggestions, "", "t0"⟩

/-- Concrete enrichment record (meeting_time 1). -/
def er1 : EnrichmentResult := ⟨"s1", 1, 0, placeholder_suggestions, "", "t1"⟩

/-- C8 counterexample: when the existing document is unparseable (malformed
JSON that is not a `FileNotFoundError`), the cycle performs no write at all
— the new result is lost for that cycle rather than appended to an empty
list. -/
theorem C8_counterexample :
    monitor_save_suggestions .unparseable er0 = none := rfl

/-- C8 amended: an absent file or a parse to a non-list value is treated as
an empty list and the new result is still appended and written in that
cycle; a parsed list is extended in place; only an unparseable file skips
the write (losing that cycle's result), while the cycle itself survives —
the exception is caught and logged. -/
theorem C8_amended_docB_read_recovery (r : EnrichmentResult)
    (l : List EnrichmentResult) :
    monitor_save_suggestions .absent r = some [r] ∧
    monitor_save_suggestions .parsedOther r = some [r] ∧
    monitor_save_suggestions (.parsedList l) r = some (l ++ [r]) ∧
    monitor_save_suggestions .unparseable r = none :=
  ⟨rfl, rfl, rfl, rfl⟩

/-- C5 counterexample: the final synchronous pass does not preserve the
previously appended records — with one prior record `er0`, the final write
produces `[er1]`, of which `[er0]` is not a prefix. -/
theorem C5_counterexample :
    ¬ [er0] <+: final_course_write er1 := by
  rintro ⟨t, ht⟩
  rw [final_course_write, List.cons_append] at ht
  have h0 : er0 = er1 := (List.cons.injEq _ _ _ _).mp ht |>.1
  have : (0 : Int) = 1 := congrArg EnrichmentResult.meeting_time h0
  exact absurd this (by decide)

/-- C5 amended: the Monitor's cycle writes are append-only — whenever a
cycle writes, the previously parsed records form a prefix of the written
list and exactly one record is appended — but the final synchronous pass is
not: it replaces the document with the single-element list holding only the
final record. -/
theorem C5_amended_append_only_monitor_only (l : List EnrichmentResult)
    (r : EnrichmentResult) :
    (∀ l', monitor_save_suggestions (.parsedList l) r = some l' →
      l <+: l' ∧ l'.length = l.length + 1 ∧ l' = l ++ [r]) ∧
    final_course_write r = [r] := by
  refine ⟨?_, rfl⟩
  intro l' hl'
  simp only [monitor_save_suggestions, Option.some.injEq] at hl'
  subst hl'
  exact ⟨⟨[r], rfl⟩, by simp, rfl⟩

/-- C5 witness: the amended claim at a concrete one-record document. -/
theorem C5_witness :
    [er0] <+: [er0] ++ [er1] ∧ ([er0] ++ [er1]).length = 2 :=
  have h := (C5_amended_append_only_monitor_only [er0] er1).1
      ([er0] ++ [er1]) rfl
  ⟨h.1, by rw [h.2.1]; rfl⟩

/-! ## Finalizing phase (`main.py` lines 110–157) -/

/-- Embeds Python `max(keys, default=0)` (`main.py` line 114). -/
def listMaxD (l : List Int) (d : Int) : Int :=
  match l with
  | [] => d
  | m :: ms => ms.foldl max m

/-- Embeds the summary-document side of the Finalizing phase
(`main.py` lines 113–137): summarize the last open minute when its segment
is non-empty and append its record, then attach the overall title/summary
when the full session transcript is non-empty. -/
def finalizeOutput (gms : String → List String → String)
    (gsum : String → List String → String)
    (gtitle : String → String → String) (s : SessionState) : OutputData :=
  let last_minute := listMaxD s.store.get_all_minute_keys 0
  let last_transcript := s.store.get_minute_segment last_minute
  let out1 :=
    if last_transcript ≠ "" then
      s.output_minute_summaries ++
        [⟨last_minute, gms last_transcript s.minute_summaries⟩]
    else s.output_minute_summaries
  let full_transcript := String.intercalate " "
    (s.store.get_all_minute_keys.map s.store.get_minute_segment)
  let overall :=
    if full_transcript ≠ "" then
      some ⟨gtitle full_transcript (gsum full_transcript []),
        gsum full_transcript []⟩
    else none
  ⟨out1, overall⟩

/-- Embeds the final synchronous enrichment pass (`main.py` lines 146–157):
`generate_course_suggestions` is run once on the just-written summary
document and document B is replaced by the single-element list holding its
result. -/
def final_phase_docB (data : OutputData) (retr : RetrievalOutcome)
    (gen : GenOutcome) (now : String) : List EnrichmentResult :=
  [generate_course_suggestions (.success data) retr gen now]

theorem meeting_time_generate (load : SummaryLoad) (retr : RetrievalOutcome)
    (gen : GenOutcome) (now : String) :
    (generate_course_suggestions load retr gen now).meeting_time =
      match load_latest_summary load with
      | .error _ => -1
      | .ok (_, mt) => mt := by
  unfold generate_course_suggestions
  cases h : load_latest_summary load with
  | error e => rfl
  | ok p =>
      obtain ⟨s, mt⟩ := p
      cases retr <;> rfl

/-- C6 counterexample: a session with fragments in minutes 0 and 1 (last
minute 1) and successfully responding collaborators. The final summary
document carries a non-empty overall summary, so the final enrichment pass
takes the overall path with `meeting_time = 0`; document B after Finalizing
holds no record whose `meeting_time` equals the session's last minute 1. -/
theorem C6_counterexample :
    listMaxD (runCallbacks (fun _ _ => "S") SessionState.init
        [⟨0, "a"⟩, ⟨65, "b"⟩]).store.get_all_minute_keys 0 = 1 ∧
    final_phase_docB
        (finalizeOutput (fun _ _ => "S") (fun _ _ => "OS") (fun _ _ => "T")
          (runCallbacks (fun _ _ => "S") SessionState.init
            [⟨0, "a"⟩, ⟨65, "b"⟩]))
        (.ok []) (.ok []) "t0" =
      [⟨"OS", 0, 0, placeholder_suggestions, "", "t0"⟩] := by
  have hstore :
      (RollingTranscript.fresh.add_transcript "a" 0).add_transcript "b" 65 =
        ⟨[⟨0, "a"⟩, ⟨65, "b"⟩], 300, [(0, ["a"]), (1, ["b"])]⟩ := by
    simp [RollingTranscript.add_transcript, RollingTranscript.fresh,
      dequeAppend, addToBucket, minuteOf_c0, minuteOf_c65]
  have h1 :
      transcript_callback (fun _ _ => "S") SessionState.init "a" 0 =
        ⟨RollingTranscript.fresh.add_transcript "a" 0, some 0, [], []⟩ := by
    rw [show SessionState.init =
        (⟨RollingTranscript.fresh, none, [], []⟩ : SessionState) from rfl,
      callback_first_eq]
    rw [callback_skip_empty (fun _ _ => "S") _ (minuteOf 0 - 1) "a" 0 rfl
        (by omega)
        (by
          simp [RollingTranscript.add_transcript, RollingTranscript.fresh,
            RollingTranscript.get_minute_segment, addToBucket, getBucket,
            minuteOf_c0]
          rfl)]
    simp [minuteOf_c0]
  have hseg :
      ((RollingTranscript.fresh.add_transcript "a" 0).add_transcript
          "b" 65).get_minute_segment 0 = "a" := by
    rw [hstore]
    rfl
  have h2 :
      transcript_callback (fun _ _ => "S")
          ⟨RollingTranscript.fresh.add_transcript "a" 0, some 0, [], []⟩
          "b" 65 =
        ⟨⟨[⟨0, "a"⟩, ⟨65, "b"⟩], 300, [(0, ["a"]), (1, ["b"])]⟩,
          some 1, ["S"], [⟨0, "S"⟩]⟩ := by
    rw [callback_fire (fun _ _ => "S") _ 0 "b" 65 rfl
        (by rw [minuteOf_c65]; omega) (by rw [hseg]; simp)]
    simp [minuteOf_c65, hstore]
  have hrun :
      runCallbacks (fun _ _ => "S") SessionState.init
          [⟨0, "a"⟩, ⟨65, "b"⟩] =
        ⟨⟨[⟨0, "a"⟩, ⟨65, "b"⟩], 300, [(0, ["a"]), (1, ["b"])]⟩,
          some 1, ["S"], [⟨0, "S"⟩]⟩ := by
    show (runCallbacks (fun _ _ => "S")
        (transcript_callback (fun _ _ => "S") SessionState.init "a" 0)
        [⟨65, "b"⟩]) = _
    rw [h1]
    show transcript_callback (fun _ _ => "S")
        ⟨RollingTranscript.fresh.add_transcript "a" 0, some 0, [], []⟩
        "b" 65 = _
    rw [h2]
  rw [hrun]
  constructor
  · decide
  · decide

/-- C6 amended: after the Finalizing phase, document B holds exactly one
record; when the written summary document's overall summary is non-empty
(the normal successful case) that record's `meeting_time` is 0 — not the
session's last minute — so a lookup by `meeting_time` equality against the
last minute fails; `meeting_time` equals the latest summarized minute only
when the overall summary is empty. -/
theorem C6_amended_final_meeting_time (data : OutputData)
    (retr : RetrievalOutcome) (gen : GenOutcome) (now : String) :
    (final_phase_docB data retr gen now).length = 1 ∧
    (data.overall_summary_field ≠ "" →
      ∀ r ∈ final_phase_docB data retr gen now, r.meeting_time = 0) ∧
    (data.overall_summary_field = "" →
      ∀ M, maxMinute (data.minute_summaries.map MinuteRecord.minute) =
          some M →
        ∀ r ∈ final_phase_docB data retr gen now, r.meeting_time = M) := by
  refine ⟨rfl, ?_, ?_⟩
  · intro hov r hr
    simp only [final_phase_docB, List.mem_singleton] at hr
    subst hr
    rw [meeting_time_generate]
    have hload : load_latest_summary (.success data) =
        .ok (data.overall_summary_field, 0) := by
      simp only [load_latest_summary]
      rw [if_pos hov]
    rw [hload]
  · intro hov M hM r hr
    simp only [final_phase_docB, List.mem_singleton] at hr
    subst hr
    rw [meeting_time_generate]
    have hmem : M ∈ data.minute_summaries.map MinuteRecord.minute :=
      maxMinute_mem _ M hM
    have hex : ∃ e ∈ data.minute_summaries,
        (fun e => decide (e.minute = M)) e = true := by
      obtain ⟨e, he, hem⟩ := List.mem_map.mp hmem
      exact ⟨e, he, by simp [hem]⟩
    have hfind := List.find?_isSome.mpr hex
    obtain ⟨e, hfe⟩ := Option.isSome_iff_exists.mp hfind
    have hload : load_latest_summary (.success data) = .ok (e.summary, M) := by
      simp only [load_latest_summary]
      rw [if_neg (by simp [hov])]
      simp only [hM, hfe]
    rw [hload]

/-- C6 witness: the amended claim at a concrete document with a non-empty
overall summary. -/
theorem C6_witness :
    (final_phase_docB docA7 (.ok []) (.ok []) "t0").length = 1 ∧
    (generate_course_suggestions (.success docA7) (.ok []) (.ok [])
        "t0").meeting_time = 0 :=
  ⟨(C6_amended_final_meeting_time docA7 (.ok []) (.ok []) "t0").1,
    (C6_amended_final_meeting_time docA7 (.ok []) (.ok []) "t0").2.1
      (by decide) _ (by simp [final_phase_docB])⟩

end MeetingPitch
